import Mathlib

/-!
# The Digistar HTTP server (`index.js`): model and properties

The server is one request handler, a chain of four continuation-passing
stages: `logRequest`, `parseBody`, `serveStatic` and the router.  Each stage
is embedded as a function on the per-request state `Conn`, taking its
continuation `next` as an argument, the way the JavaScript does.

What the handler relies on but does not define is kept apart:

* the built-ins `url.parse`, `querystring.parse` and `JSON.parse` are the
  fields of a `Runtime`, so general theorems hold for every behaviour of
  these functions; `node` is an executable instance used on concrete inputs;
* the file system is a `FileSystem`: a working directory and the entry found
  at each absolute location, with POSIX path resolution on top of it;
* the request body stream is the list of chunks still to arrive, together
  with the listeners that are registered; events reach the listeners that
  are registered when the event is emitted, and `end` is emitted once.
-/

namespace Digistar

/-! ## JavaScript values and `JSON.stringify` -/

/-- JavaScript values that occur as `req.body` or as a JSON response.  A
number is identified by the text JavaScript prints for it. -/
inductive JsVal where
  | undefined
  | null
  | bool (b : Bool)
  | num (text : String)
  | str (s : String)
  | arr (items : List JsVal)
  | obj (fields : List (String × JsVal))

/-- One property of the object `querystring.parse` returns: a string, or an
array of strings when the key is repeated. -/
inductive QVal where
  | one (s : String)
  | many (xs : List String)
  deriving DecidableEq, Repr

/-- Lower-case hexadecimal digit. -/
def hexDigit (n : Nat) : Char :=
  if n < 10 then Char.ofNat (48 + n) else Char.ofNat (87 + n)

/-- Escape sequence of one character inside a JSON string (`QuoteJSONString`). -/
def quoteChar (c : Char) : List Char :=
  let bs := Char.ofNat 92
  if c.toNat = 34 then [bs, Char.ofNat 34]
  else if c.toNat = 92 then [bs, bs]
  else if c.toNat = 8 then [bs, Char.ofNat 98]
  else if c.toNat = 12 then [bs, Char.ofNat 102]
  else if c.toNat = 10 then [bs, Char.ofNat 110]
  else if c.toNat = 13 then [bs, Char.ofNat 114]
  else if c.toNat = 9 then [bs, Char.ofNat 116]
  else if c.toNat < 32 then
    [bs, Char.ofNat 117, Char.ofNat 48, Char.ofNat 48, hexDigit (c.toNat / 16), hexDigit (c.toNat % 16)]
  else [c]

/-- A string as a JSON string literal. -/
def quoteJSON (s : String) : String :=
  String.mk (Char.ofNat 34 :: (s.data.flatMap quoteChar ++ [Char.ofNat 34]))

/-- The brackets around the serialized members, one member per line at the
deeper indentation; an empty list of members gives just the brackets. -/
def wrapMembers (opening closing stepback : String) (members : List String) : String :=
  match members with
  | [] => opening ++ closing
  | _ :: _ =>
    opening ++ "\n" ++ stepback ++ "  "
      ++ (",\n" ++ stepback ++ "  ").intercalate members
      ++ "\n" ++ stepback ++ closing

mutual
/-- Serialization of a value at indentation `ind` with a gap of two spaces;
`none` is JavaScript's `undefined` (nothing is produced). -/
def stringifyAt (ind : String) : JsVal → Option String
  | .undefined => none
  | .null => some "null"
  | .bool b => some (if b then "true" else "false")
  | .num t => some t
  | .str s => some (quoteJSON s)
  | .arr items => some (wrapMembers "[" "]" ind (stringifyItems (ind ++ "  ") items))
  | .obj fields => some (wrapMembers "\x7b" "\x7d" ind (stringifyFields (ind ++ "  ") fields))
/-- Array elements: an `undefined` element is written `null`. -/
def stringifyItems (ind : String) : List JsVal → List String
  | [] => []
  | x :: xs => (stringifyAt ind x).getD "null" :: stringifyItems ind xs
/-- Object properties: a property whose value is `undefined` is left out. -/
def stringifyFields (ind : String) : List (String × JsVal) → List String
  | [] => []
  | (k, v) :: rest =>
    match stringifyAt ind v with
    | none => stringifyFields ind rest
    | some s => (quoteJSON k ++ ": " ++ s) :: stringifyFields ind rest
end

/-- The call `JSON.stringify(data, null, 2)`. -/
def jsonStringify (data : JsVal) : Option String :=
  stringifyAt "" data

/-! ## The built-ins the handler calls -/

/-- The fields of `url.parse(u)` that the server reads: `pathname`, and the
text after `?` (`none` when the URL has no query). -/
structure ParsedUrl where
  pathname : String
  query : Option String
  deriving DecidableEq, Repr

/-- The Node built-ins whose results the handler uses. `jsonParse` returns
`none` where `JSON.parse` throws. -/
structure Runtime where
  urlParse : String → ParsedUrl
  qsParse : String → List (String × QVal)
  jsonParse : String → Option JsVal

/-- The `query` object of `url.parse(u, true)`: `querystring.parse` of the
query text, the empty object when there is none. -/
def Runtime.queryOf (rt : Runtime) (u : String) : List (String × QVal) :=
  match (rt.urlParse u).query with
  | none => []
  | some q => rt.qsParse q

/-- Property read `obj[key]` on an object given by its own properties. -/
def getProp {α : Type} (fields : List (String × α)) (key : String) : Option α :=
  (fields.find? (fun f => f.1 = key)).map (fun f => f.2)

/-- A query value as a JavaScript value. -/
def QVal.toJs : QVal → JsVal
  | .one s => .str s
  | .many xs => .arr (xs.map JsVal.str)

/-- A `querystring.parse` result as a JavaScript object. -/
def queryToJs (q : List (String × QVal)) : JsVal :=
  .obj (q.map (fun f => (f.1, f.2.toJs)))

/-- Truthiness of `query.name`: absent and the empty string are falsy, an
array is truthy. -/
def truthy : Option QVal → Bool
  | none => false
  | some (.one s) => s ≠ ""
  | some (.many _) => true

/-- String conversion of a query value in a template literal: an array is
joined with commas. -/
def QVal.toText : QVal → String
  | .one s => s
  | .many xs => ",".intercalate xs

/-! ## The file system -/

/-- What is found at a location. `unreadable` is a regular file whose read
fails with the given message. -/
inductive Entry where
  | missing
  | directory
  | file (content : List UInt8)
  | unreadable (message : String)
  deriving DecidableEq, Repr

/-- A snapshot of the file system: the process working directory and the
entry at each absolute location (a list of names from the root). -/
structure FileSystem where
  cwd : List String
  entryAt : List String → Entry

/-- Split a path at `/`. -/
def splitSlash : List Char → List String
  | [] => [""]
  | c :: cs =>
    match splitSlash cs with
    | [] => [""]
    | w :: ws => if c.toNat = 47 then "" :: w :: ws else (String.mk (c :: w.data)) :: ws

/-- Is the location a directory? The root always is. -/
def FileSystem.dirAt (fs : FileSystem) (loc : List String) : Bool :=
  loc = [] ∨ fs.entryAt loc = .directory

/-- Walk the components of a path from a location: every component is looked
up in a directory, `.` and the empty component stay, `..` goes to the parent. -/
def FileSystem.walk (fs : FileSystem) : List String → List String → Option (List String)
  | cur, [] => some cur
  | cur, comp :: rest =>
    if fs.dirAt cur then
      if comp = "" ∨ comp = "." then fs.walk cur rest
      else if comp = ".." then fs.walk cur.dropLast rest
      else fs.walk (cur ++ [comp]) rest
    else none

/-- The absolute location a path names, when every directory on the way
exists. -/
def FileSystem.resolve (fs : FileSystem) (path : String) : Option (List String) :=
  match splitSlash path.data with
  | "" :: rest => if path = "" then none else fs.walk [] rest
  | comps => fs.walk fs.cwd comps

/-- The entry a path names. -/
def FileSystem.stat (fs : FileSystem) (path : String) : Entry :=
  match fs.resolve path with
  | none => .missing
  | some [] => .directory
  | some loc => fs.entryAt loc

/-- The call `fs.exists(path, cb)`: the value passed to `cb`. -/
def FileSystem.pathExists (fs : FileSystem) (path : String) : Bool :=
  fs.stat path ≠ .missing

/-- The call `fs.statSync(path).isDirectory()`. -/
def FileSystem.isDirectory (fs : FileSystem) (path : String) : Bool :=
  fs.stat path = .directory

/-- The call `fs.readFile(path, cb)`: the error message or the data passed
to `cb`. -/
def FileSystem.readFile (fs : FileSystem) (path : String) : Except String (List UInt8) :=
  match fs.stat path with
  | .file content => .ok content
  | .unreadable message => .error message
  | .directory => .error "EISDIR: illegal operation on a directory, read"
  | .missing => .error ("ENOENT: no such file or directory, open \x27" ++ path ++ "\x27")

/-- A location is under `./public` when it lies strictly below the directory
`public` of the working directory. -/
def FileSystem.underPublic (fs : FileSystem) (loc : List String) : Bool :=
  (fs.cwd ++ ["public"]).isPrefixOf loc ∧ loc ≠ fs.cwd ++ ["public"]

/-! ## `path.parse(p).ext` and the MIME table -/

/-- The variables of the backward scan in `path.parse` (POSIX); `none` is
the JavaScript value `-1`. -/
structure ExtScan where
  startDot : Option Nat := none
  startPart : Nat := 0
  endIdx : Option Nat := none
  matchedSlash : Bool := true
  preDotState : Int := 0

/-- The body of the loop of `path.parse` at index `i` for a character, of
code `code`, that is not `/`. -/
def scanStep (i : Nat) (code : Nat) (s : ExtScan) : ExtScan :=
  let s1 := if s.endIdx = none then { s with matchedSlash := false, endIdx := some (i + 1) } else s
  if code = 46 then
    if s1.startDot = none then { s1 with startDot := some i }
    else if s1.preDotState ≠ 1 then { s1 with preDotState := 1 }
    else s1
  else if s1.startDot ≠ none then { s1 with preDotState := -1 }
  else s1

/-- The loop `for (; i >= start; --i)` of `path.parse`, with `i = start + k`
for the `k + 1` indices still to visit; at a `/` that follows the last
component the loop breaks. -/
def scanBack (p : List Char) (start : Nat) : Nat → ExtScan → ExtScan
  | 0, s => s
  | k + 1, s =>
    let i := start + k
    let code := (p.getD i (Char.ofNat 0)).toNat
    if code = 47 then
      if s.matchedSlash then scanBack p start k s
      else { s with startPart := i + 1 }
    else scanBack p start k (scanStep i code s)

/-- The value `path.parse(path).ext`. -/
def parseExt (path : String) : String :=
  let p := path.data
  let start := if (p.head?.map Char.toNat) = some 47 then 1 else 0
  let s := scanBack p start (p.length - start) {}
  match s.endIdx, s.startDot with
  | some e, some d =>
    if s.preDotState = 0 ∨ (s.preDotState = 1 ∧ d = e - 1 ∧ d = s.startPart + 1) then ""
    else String.mk ((p.drop d).take (e - d))
  | _, _ => ""

/-- The object `map` of `serveStatic`. -/
def mimeMap : List (String × String) :=
  [ (".ico", "image/x-icon"),
    (".html", "text/html"),
    (".js", "text/javascript"),
    (".json", "application/json"),
    (".css", "text/css"),
    (".png", "image/png"),
    (".jpg", "image/jpeg"),
    (".wav", "audio/wav"),
    (".mp4", "video/mp4"),
    (".woff", "application/font-woff"),
    (".ttf", "application/font-ttf"),
    (".eot", "application/vnd.ms-fontobject"),
    (".otf", "application/font-otf"),
    (".svg", "application/image/svg+xml") ]

/-- The expression `map[ext] || 'text/plain'`.  An extension is empty or
starts with a dot, so no inherited property of the object is ever read, and
every value of the table is a non-empty string. -/
def contentTypeOf (ext : String) : String :=
  (getProp mimeMap ext).getD "text/plain"

/-! ## Request, response and per-request state -/

/-- The request object: what Node provides, and `body`, the property that
`parseBody` attaches (`none` while it is unset). -/
structure Request where
  method : String
  url : String
  httpVersion : String := "1.1"
  headers : List (String × String) := []
  body : Option JsVal := none

/-- What `res.end` is given: a string or a buffer. -/
inductive Payload where
  | text (s : String)
  | bytes (b : List UInt8)
  deriving DecidableEq, Repr

/-- The response object: `endCalls` counts the calls of `res.end`, and the
response has been sent when it is positive. -/
structure Res where
  statusCode : Nat := 200
  headers : List (String × String) := []
  endCalls : Nat := 0
  body : Option Payload := none
  deriving DecidableEq, Repr

/-- ASCII lower-casing, as Node applies to header names. -/
def lower (s : String) : String :=
  String.mk (s.data.map Char.toLower)

/-- Replace the header of that name (compared without case) or add it. -/
def setHeaderIn (name value : String) : List (String × String) → List (String × String)
  | [] => [(name, value)]
  | h :: t => if lower h.1 = lower name then (name, value) :: t else h :: setHeaderIn name value t

/-- The call `res.setHeader(name, value)`. -/
def Res.setHeader (r : Res) (name value : String) : Res :=
  { r with headers := setHeaderIn name value r.headers }

/-- The call `res.getHeader(name)`. -/
def Res.getHeader (r : Res) (name : String) : Option String :=
  (r.headers.find? (fun h => lower h.1 = lower name)).map (fun h => h.2)

/-- The call `res.end(chunk)`: the first call sends the response, a later
one sends nothing. -/
def Res.endWith (r : Res) (chunk : Option Payload) : Res :=
  if r.endCalls = 0 then { r with body := chunk, endCalls := 1 }
  else { r with endCalls := r.endCalls + 1 }

/-- What `console.log` was called with (the timestamp is left out). -/
inductive LogEntry where
  | request (method url : String)
  | headers (hs : List (String × String))
  | body (text : String)
  deriving DecidableEq, Repr

/-- The stages that take a continuation. -/
inductive Stage where
  | logRequest
  | parseBody
  | serveStatic
  deriving DecidableEq, Repr

/-- The state of one request: the request and response objects, the body
stream (`endEmitted`, the listeners of `logRequest` and of `parseBody` with
the `body` variable each closure accumulates), the console output, and the
record `nexts` of the continuations invoked so far, latest first. -/
structure Conn where
  req : Request
  res : Res := {}
  endEmitted : Bool := false
  logListening : Bool := false
  logBody : String := ""
  parseListening : Bool := false
  parseBuf : String := ""
  console : List LogEntry := []
  nexts : List Stage := []

/-- Record that a stage invokes its continuation. -/
def Conn.called (c : Conn) (s : Stage) : Conn :=
  { c with nexts := s :: c.nexts }

/-- Append to the console. -/
def Conn.log (c : Conn) (e : LogEntry) : Conn :=
  { c with console := c.console ++ [e] }

/-- The header `req.headers[name]`. -/
def Conn.header (c : Conn) (name : String) : Option String :=
  getProp c.req.headers name

/-! ## The functions of `index.js` -/

/-- Source `sendJSONResponse(res, statusCode, data)`. -/
def sendJSONResponse (res : Res) (statusCode : Nat) (data : JsVal) : Res :=
  (({ res with statusCode := statusCode }).setHeader "Content-Type" "application/json").endWith
    ((jsonStringify data).map Payload.text)

/-- Source `handleError(res, statusCode, message)`. -/
def handleError (res : Res) (statusCode : Nat) (message : String) : Res :=
  (({ res with statusCode := statusCode }).setHeader "Content-Type" "text/html").endWith
    (some (.text ("<h2>" ++ message ++ "</h2>")))

/-- Source `logRequest(req, res, next)`: for POST it registers its `data` and
`end` listeners and returns; otherwise it calls `next`. -/
def logRequest (next : Conn → Conn) (c : Conn) : Conn :=
  let c1 := (c.log (.request c.req.method c.req.url)).log (.headers c.req.headers)
  if c1.req.method = "POST" then { c1 with logListening := true, logBody := "" }
  else next (c1.called .logRequest)

/-- The `data` listener of `logRequest`. -/
def logRequest.onData (chunk : String) (c : Conn) : Conn :=
  { c with logBody := c.logBody ++ chunk }

/-- The `end` listener of `logRequest`. -/
def logRequest.onEnd (next : Conn → Conn) (c : Conn) : Conn :=
  next ((c.log (.body c.logBody)).called .logRequest)

/-- Source `parseBody(req, res, next)`: for POST it registers its `data` and
`end` listeners and returns; otherwise it calls `next`. -/
def parseBody (next : Conn → Conn) (c : Conn) : Conn :=
  if c.req.method = "POST" then { c with parseListening := true, parseBuf := "" }
  else next (c.called .parseBody)

/-- The `data` listener of `parseBody`. -/
def parseBody.onData (chunk : String) (c : Conn) : Conn :=
  { c with parseBuf := c.parseBuf ++ chunk }

/-- The `end` listener of `parseBody`. -/
def parseBody.onEnd (rt : Runtime) (next : Conn → Conn) (c : Conn) : Conn :=
  if c.header "content-type" = some "application/json" then
    match rt.jsonParse c.parseBuf with
    | some v => next (({ c with req := { c.req with body := some v } }).called .parseBody)
    | none =>
      { c with res := sendJSONResponse c.res 400 (.obj [("error", .str "Invalid JSON")]) }
  else if c.header "content-type" = some "application/x-www-form-urlencoded" then
    next (({ c with req := { c.req with body := some (queryToJs (rt.qsParse c.parseBuf)) } }).called
      .parseBody)
  else next (c.called .parseBody)

/-- The path `serveStatic` first checks: the public root followed by the
URL's pathname. -/
def publicPath (rt : Runtime) (u : String) : String :=
  "./public" ++ (rt.urlParse u).pathname

/-- The path `serveStatic` reads: a directory gets `/index.html` appended. -/
def servedPath (rt : Runtime) (fs : FileSystem) (u : String) : String :=
  if fs.isDirectory (publicPath rt u) then publicPath rt u ++ "/index.html" else publicPath rt u

/-- Source `serveStatic(req, res, next)`, with the callbacks of `fs.exists`
and `fs.readFile` run on one snapshot of the file system. -/
def serveStatic (rt : Runtime) (fs : FileSystem) (next : Conn → Conn) (c : Conn) : Conn :=
  if fs.pathExists (publicPath rt c.req.url) then
    let pathname := servedPath rt fs c.req.url
    match fs.readFile pathname with
    | .error message =>
      let res := ({ c.res with statusCode := 500 }).endWith (some (.text ("Error: " ++ message)))
      { c with res := res }
    | .ok data =>
      let res := (c.res.setHeader "Content-type" (contentTypeOf (parseExt pathname))).endWith
        (some (.bytes data))
      { c with res := res }
  else next (c.called .serveStatic)

/-- The value of `name` in the `/about` route: `parsedUrl.query.name ||
'Digistar'`, converted to text by the template literal. -/
def aboutName (query : List (String × QVal)) : String :=
  match getProp query "name" with
  | some v => if truthy (some v) then v.toText else "Digistar"
  | none => "Digistar"

/-- The object `info` of the `/info` route. -/
def infoOf (rt : Runtime) (req : Request) : JsVal :=
  .obj [ ("httpVersion", .str req.httpVersion),
         ("method", .str req.method),
         ("url", .str req.url),
         ("headers", .obj (req.headers.map (fun h => (h.1, JsVal.str h.2)))),
         ("queryParameters", queryToJs (rt.queryOf req.url)) ]

/-- The last continuation of the handler: the route table. -/
def router (rt : Runtime) (c : Conn) : Conn :=
  let pathname := (rt.urlParse c.req.url).pathname
  if pathname = "/" ∧ c.req.method = "GET" then
    let res := (({ c.res with statusCode := 200 }).setHeader "Content-Type" "text/html").endWith
      (some (.text "<h2>Hello, Digistar!</h2>"))
    { c with res := res }
  else if pathname = "/info" ∧ c.req.method = "GET" then
    { c with res := sendJSONResponse c.res 200 (infoOf rt c.req) }
  else if pathname = "/about" ∧ c.req.method = "GET" then
    let name := aboutName (rt.queryOf c.req.url)
    let res := (({ c.res with statusCode := 200 }).setHeader "Content-Type" "text/html").endWith
      (some (.text ("<h2>Hello, Ini Halaman About " ++ name ++ "!</h2>")))
    { c with res := res }
  else if pathname = "/submit" ∧ c.req.method = "POST" then
    let data := JsVal.obj [ ("message", .str "Data submitted successfully!"),
                            ("data", c.req.body.getD .undefined) ]
    { c with res := sendJSONResponse c.res 200 data }
  else if c.req.method ≠ "GET" ∧ c.req.method ≠ "POST" then
    { c with res := handleError c.res 405 "Method Not Allowed" }
  else
    { c with res := handleError c.res 404 "Page Not Found" }

/-- The continuation given to `parseBody`: `serveStatic`, then the router. -/
def afterParse (rt : Runtime) (fs : FileSystem) : Conn → Conn :=
  serveStatic rt fs (router rt)

/-- The continuation given to `logRequest`: `parseBody` and what follows. -/
def afterLog (rt : Runtime) (fs : FileSystem) : Conn → Conn :=
  parseBody (afterParse rt fs)

/-- The callback of `http.createServer`, run when the request head has
arrived. -/
def onRequest (rt : Runtime) (fs : FileSystem) (c : Conn) : Conn :=
  logRequest (afterLog rt fs) c

/-! ## The body stream -/

/-- Emission of `data`: every `data` listener registered now receives the
chunk. -/
def emitData (chunk : String) (c : Conn) : Conn :=
  let c1 := if c.logListening then logRequest.onData chunk c else c
  if c.parseListening then parseBody.onData chunk c1 else c1

/-- Emission of `end`: the `end` listeners registered when the event is
emitted run, in the order of registration; a listener added meanwhile is not
among them. -/
def emitEnd (rt : Runtime) (fs : FileSystem) (c : Conn) : Conn :=
  let c0 := { c with endEmitted := true }
  let c1 := if c.logListening then logRequest.onEnd (afterLog rt fs) c0 else c0
  if c.parseListening then parseBody.onEnd rt (afterParse rt fs) c1 else c1

/-- The stream in flowing mode: each chunk is emitted, then `end`, once. -/
def flow (rt : Runtime) (fs : FileSystem) : List String → Conn → Conn
  | [], c => emitEnd rt fs c
  | chunk :: rest, c => flow rt fs rest (emitData chunk c)

/-- One request from arrival to quiescence: the handler runs; the stream
flows if the handler attached a `data` listener, and after `end` no further
event of the request occurs. -/
def serve (rt : Runtime) (fs : FileSystem) (req : Request) (chunks : List String) : Conn :=
  let c := onRequest rt fs { req := req }
  if c.logListening ∨ c.parseListening then flow rt fs chunks c else c

/-! ## An executable instance of the built-ins

`node` gives the built-ins behaviour that can be evaluated.  It follows Node
where stated and is used on concrete requests only; the general theorems
quantify over every `Runtime`. -/

/-- The index an object key denotes when it is a canonical array index (such
keys are enumerated first, in ascending order). -/
def arrayIndex (k : String) : Option Nat :=
  match k.data with
  | [] => none
  | [d] => if d.isDigit then some (d.toNat - 48) else none
  | d :: ds =>
    if d.isDigit ∧ d.toNat ≠ 48 ∧ ds.all Char.isDigit then
      let n := (d :: ds).foldl (fun acc ch => acc * 10 + (ch.toNat - 48)) 0
      if n < 4294967295 then some n else none
    else none

/-- Add a new own property, keeping JavaScript's enumeration order. -/
def insertProp {α : Type} (k : String) (v : α) : List (String × α) → List (String × α)
  | [] => [(k, v)]
  | f :: rest =>
    match arrayIndex k, arrayIndex f.1 with
    | some i, some j => if i < j then (k, v) :: f :: rest else f :: insertProp k v rest
    | some _, none => (k, v) :: f :: rest
    | none, _ => f :: insertProp k v rest

/-- The assignment `obj[k] = v`: an existing property keeps its place. -/
def setProp {α : Type} (k : String) (v : α) (fields : List (String × α)) : List (String × α) :=
  if fields.any (fun f => f.1 = k) then fields.map (fun f => if f.1 = k then (k, v) else f)
  else insertProp k v fields

/-- Split at every occurrence of a character. -/
def splitAt (sep : Nat) : List Char → List (List Char)
  | [] => [[]]
  | c :: cs =>
    match splitAt sep cs with
    | [] => [[]]
    | w :: ws => if c.toNat = sep then [] :: w :: ws else (c :: w) :: ws

/-- Split at the first occurrence of a character, if there is one. -/
def cutAt (sep : Nat) : List Char → List Char × Option (List Char)
  | [] => ([], none)
  | c :: cs =>
    if c.toNat = sep then ([], some cs)
    else ((cutAt sep cs).1 |> (c :: ·), (cutAt sep cs).2)

/-- Value of a hexadecimal digit. -/
def hexVal (c : Char) : Option Nat :=
  if c.isDigit then some (c.toNat - 48)
  else if 97 ≤ c.toNat ∧ c.toNat ≤ 102 then some (c.toNat - 87)
  else if 65 ≤ c.toNat ∧ c.toNat ≤ 70 then some (c.toNat - 55)
  else none

/-- The ASCII character a two-digit escape `XX` denotes, for `XX` below `80`. -/
def escapedAscii : List Char → Option Char
  | h :: l :: _ =>
    match hexVal h, hexVal l with
    | some a, some b => if a < 8 then some (Char.ofNat (a * 16 + b)) else none
    | _, _ => none
  | _ => none

/-- Decoding with `skip` characters still to drop (the digits of an escape
just decoded). -/
def qsUnescapeFrom : Nat → List Char → List Char
  | _, [] => []
  | skip + 1, _ :: cs => qsUnescapeFrom skip cs
  | 0, c :: cs =>
    if c.toNat = 43 then Char.ofNat 32 :: qsUnescapeFrom 0 cs
    else if c.toNat = 37 then
      match escapedAscii cs with
      | some ch => ch :: qsUnescapeFrom 2 cs
      | none => c :: qsUnescapeFrom 0 cs
    else c :: qsUnescapeFrom 0 cs

/-- Decoding of a key or value as `querystring.unescape` does it: `+` is a
space and `%XX` is the byte `XX`.  Only escapes of ASCII bytes are decoded;
an escape of a byte above `7F`, which Node decodes as UTF-8, is kept as
written. -/
def qsUnescape (cs : List Char) : List Char :=
  qsUnescapeFrom 0 cs

/-- The function `addKeyValue` of `querystring.parse`: a repeated key
collects its values in an array. -/
def addKeyValue (obj : List (String × QVal)) (key value : String) : List (String × QVal) :=
  match getProp obj key with
  | none => setProp key (.one value) obj
  | some (.one cur) => setProp key (.many [cur, value]) obj
  | some (.many cur) => setProp key (.many (cur ++ [value])) obj

/-- Model of `querystring.parse(text)`: the first 1000 pieces between `&`,
the empty ones skipped, each cut at its first `=`. -/
def qsParse (text : String) : List (String × QVal) :=
  ((splitAt 38 text.data).take 1000).foldl
    (fun obj piece =>
      if piece = [] then obj
      else
        let kv := cutAt 61 piece
        addKeyValue obj (String.mk (qsUnescape kv.1)) (String.mk (qsUnescape (kv.2.getD []))))
    []

/-- Model of `url.parse(u)` on the path it takes for a request target that
starts with `/` (not with `///`) and has no `#`, `@` or white space: every
backslash before the first `?` becomes `/`, the pathname ends at the first
`?`, and the query is what follows it.  Other targets are cut the same way,
which only approximates Node. -/
def urlParse (u : String) : ParsedUrl :=
  let cut := cutAt 63 u.data
  { pathname := String.mk (cut.1.map (fun c => if c.toNat = 92 then Char.ofNat 47 else c)),
    query := cut.2.map String.mk }

/-- Skip JSON white space: space, tab, line feed, carriage return. -/
def skipWs : List Char → List Char
  | [] => []
  | c :: cs =>
    if c.toNat = 32 ∨ c.toNat = 9 ∨ c.toNat = 10 ∨ c.toNat = 13 then skipWs cs else c :: cs

/-- The leading decimal digits and what follows them. -/
def takeDigits : List Char → List Char × List Char
  | [] => ([], [])
  | c :: cs => if c.isDigit then (c :: (takeDigits cs).1, (takeDigits cs).2) else ([], c :: cs)

/-- Value of a string of decimal digits. -/
def digitsVal (ds : List Char) : Nat :=
  ds.foldl (fun acc ch => acc * 10 + (ch.toNat - 48)) 0

/-- Drop the leading zeros, lowering the position of the decimal point by
one for each. -/
def dropLeadingZeros : List Char → Int → List Char × Int
  | [], k => ([], k)
  | c :: cs, k => if c.toNat = 48 then dropLeadingZeros cs (k - 1) else (c :: cs, k)

/-- Drop the trailing zeros. -/
def dropTrailingZeros (ds : List Char) : List Char :=
  (ds.reverse.dropWhile (fun c => c.toNat = 48)).reverse

/-- The text JavaScript prints (`Number::toString`) for the number with
significant digits `ds` (no zero at either end) and value `0.ds × 10^k`. -/
def numberText (ds : List Char) (k : Int) : String :=
  let n : Int := ds.length
  if n ≤ k ∧ k ≤ 21 then String.mk (ds ++ List.replicate (k - n).toNat (Char.ofNat 48))
  else if 0 < k ∧ k ≤ 21 then String.mk (ds.take k.toNat ++ Char.ofNat 46 :: ds.drop k.toNat)
  else if -6 < k ∧ k ≤ 0 then
    String.mk (Char.ofNat 48 :: Char.ofNat 46 :: (List.replicate (-k).toNat (Char.ofNat 48) ++ ds))
  else
    let e := k - 1
    let mant := match ds with
      | [] => []
      | [d] => [d]
      | d :: rest => d :: Char.ofNat 46 :: rest
    String.mk mant ++ "e" ++ (if e < 0 then "-" else "+") ++ toString e.natAbs

/-- A JSON number literal at the head of the input: the number it denotes
and the rest.  The number is given by its exact decimal value, which is the
number JavaScript holds when the literal has at most 15 significant digits
and is within the range of a double; the rounding of longer literals is not
modelled. -/
def parseNumber (cs : List Char) : Option (JsVal × List Char) :=
  let neg := (cs.head?.map Char.toNat) = some 45
  let body := if neg then cs.drop 1 else cs
  let ip := takeDigits body
  if ip.1 = [] ∨ (ip.1.length > 1 ∧ (ip.1.head?.map Char.toNat) = some 48) then none
  else
    let fp : Option (List Char × List Char) :=
      match ip.2 with
      | d :: rest =>
        if d.toNat = 46 then
          if (takeDigits rest).1 = [] then none else some (takeDigits rest)
        else some ([], ip.2)
      | [] => some ([], [])
    match fp with
    | none => none
    | some (frac, afterFrac) =>
      let ep : Option (Int × List Char) :=
        match afterFrac with
        | e :: rest =>
          if e.toNat = 101 ∨ e.toNat = 69 then
            let signed := match rest with
              | sg :: rest2 =>
                if sg.toNat = 45 then (true, rest2) else if sg.toNat = 43 then (false, rest2)
                else (false, rest)
              | [] => (false, [])
            let ed := takeDigits signed.2
            if ed.1 = [] then none
            else some (if signed.1 then -(digitsVal ed.1 : Int) else (digitsVal ed.1 : Int), ed.2)
          else some (0, afterFrac)
        | [] => some (0, [])
      match ep with
      | none => none
      | some (e, rest) =>
        let norm := dropLeadingZeros (ip.1 ++ frac) (ip.1.length + e)
        let ds := dropTrailingZeros norm.1
        if ds = [] then some (.num "0", rest)
        else some (.num ((if neg then "-" else "") ++ numberText ds norm.2), rest)

/-- Four hexadecimal digits as a code unit. -/
def parseHex4 : List Char → Option (Nat × List Char)
  | a :: b :: c :: d :: rest =>
    match hexVal a, hexVal b, hexVal c, hexVal d with
    | some w, some x, some y, some z => some (((w * 16 + x) * 16 + y) * 16 + z, rest)
    | _, _, _, _ => none
  | _ => none

/-- The characters of a JSON string after its opening quote, up to the
closing quote, and the rest.  A surrogate pair of `\u` escapes is one
character; a lone surrogate escape, which a JavaScript string can hold and a
`String` cannot, becomes U+FFFD. -/
def parseString : Nat → List Char → Option (List Char × List Char)
  | 0, _ => none
  | _ + 1, [] => none
  | n + 1, c :: cs =>
    if c.toNat = 34 then some ([], cs)
    else if c.toNat < 32 then none
    else if c.toNat = 92 then
      match cs with
      | [] => none
      | e :: rest =>
        let simple : Option Char :=
          if e.toNat = 34 ∨ e.toNat = 92 ∨ e.toNat = 47 then some e
          else if e.toNat = 98 then some (Char.ofNat 8)
          else if e.toNat = 102 then some (Char.ofNat 12)
          else if e.toNat = 110 then some (Char.ofNat 10)
          else if e.toNat = 114 then some (Char.ofNat 13)
          else if e.toNat = 116 then some (Char.ofNat 9)
          else none
        match simple with
        | some ch => (parseString n rest).map (fun r => (ch :: r.1, r.2))
        | none =>
          if e.toNat = 117 then
            match parseHex4 rest with
            | none => none
            | some (u, rest2) =>
              let low : Option (Nat × List Char) :=
                match rest2 with
                | b :: v :: rest3 =>
                  if b.toNat = 92 ∧ v.toNat = 117 then parseHex4 rest3 else none
                | _ => none
              match low with
              | some (l, rest4) =>
                if 55296 ≤ u ∧ u < 56320 ∧ 56320 ≤ l ∧ l < 57344 then
                  (parseString n rest4).map
                    (fun r => (Char.ofNat (65536 + (u - 55296) * 1024 + (l - 56320)) :: r.1, r.2))
                else
                  (parseString n rest2).map
                    (fun r => (Char.ofNat (if 55296 ≤ u ∧ u < 57344 then 65533 else u) :: r.1, r.2))
              | none =>
                (parseString n rest2).map
                  (fun r => (Char.ofNat (if 55296 ≤ u ∧ u < 57344 then 65533 else u) :: r.1, r.2))
          else none
    else (parseString n cs).map (fun r => (c :: r.1, r.2))

/-- One of the literals `true`, `false`, `null` at the head of the input. -/
def parseLiteral (word : String) (v : JsVal) (cs : List Char) : Option (JsVal × List Char) :=
  if word.data.isPrefixOf cs then some (v, cs.drop word.length) else none

mutual
/-- A JSON value at the head of the input, after white space. The first
argument bounds the number of nested calls. -/
def parseValue : Nat → List Char → Option (JsVal × List Char)
  | 0, _ => none
  | n + 1, cs =>
    match skipWs cs with
    | [] => none
    | c :: rest =>
      if c.toNat = 123 then
        match skipWs rest with
        | [] => none
        | d :: rest2 => if d.toNat = 125 then some (.obj [], rest2) else parseMembers n [] (d :: rest2)
      else if c.toNat = 91 then
        match skipWs rest with
        | [] => none
        | d :: rest2 => if d.toNat = 93 then some (.arr [], rest2) else parseElements n [] (d :: rest2)
      else if c.toNat = 34 then
        (parseString (rest.length + 1) rest).map (fun r => (JsVal.str (String.mk r.1), r.2))
      else if c.toNat = 116 then parseLiteral "true" (.bool true) (c :: rest)
      else if c.toNat = 102 then parseLiteral "false" (.bool false) (c :: rest)
      else if c.toNat = 110 then parseLiteral "null" .null (c :: rest)
      else parseNumber (c :: rest)
/-- The elements of an array after `[`, up to `]`. -/
def parseElements : Nat → List JsVal → List Char → Option (JsVal × List Char)
  | 0, _, _ => none
  | n + 1, acc, cs =>
    match parseValue n cs with
    | none => none
    | some (v, rest) =>
      match skipWs rest with
      | [] => none
      | d :: rest2 =>
        if d.toNat = 44 then parseElements n (acc ++ [v]) rest2
        else if d.toNat = 93 then some (.arr (acc ++ [v]), rest2)
        else none
/-- The members of an object after `{`, up to `}`; a repeated key keeps its
last value. -/
def parseMembers : Nat → List (String × JsVal) → List Char → Option (JsVal × List Char)
  | 0, _, _ => none
  | n + 1, acc, cs =>
    match skipWs cs with
    | [] => none
    | q :: rest =>
      if q.toNat = 34 then
        match parseString (rest.length + 1) rest with
        | none => none
        | some (key, rest2) =>
          match skipWs rest2 with
          | [] => none
          | colon :: rest3 =>
            if colon.toNat = 58 then
              match parseValue n rest3 with
              | none => none
              | some (v, rest4) =>
                match skipWs rest4 with
                | [] => none
                | d :: rest5 =>
                  if d.toNat = 44 then parseMembers n (setProp (String.mk key) v acc) rest5
                  else if d.toNat = 125 then some (.obj (setProp (String.mk key) v acc), rest5)
                  else none
            else none
      else none
end

/-- Model of `JSON.parse(text)`: the value, or `none` where `JSON.parse`
throws a `SyntaxError`. -/
def jsonParse (text : String) : Option JsVal :=
  match parseValue (2 * text.length + 4) text.data with
  | none => none
  | some (v, rest) => if skipWs rest = [] then some v else none

/-- The executable instance of the built-ins. -/
def node : Runtime :=
  { urlParse := urlParse, qsParse := qsParse, jsonParse := jsonParse }

/-! ## Auxiliary definitions for the statements -/

/-- The scan of `path.parse` as a recursion over the reversed path: the head
of the list is the character at index `r.length`. -/
def scanRev : List Char → ExtScan → ExtScan
  | [], s => s
  | c :: r, s =>
    if c.toNat = 47 then
      if s.matchedSlash then scanRev r s
      else { s with startPart := r.length + 1 }
    else scanRev r (scanStep r.length c.toNat s)

/-- The first non-separator character seen by the scan marks the end of
the last component. -/
def markEnd (n : Nat) (s : ExtScan) : ExtScan :=
  if s.endIdx = none then { s with matchedSlash := false, endIdx := some n } else s

/-- The state in which `logRequest` hands over to its continuation when the
request is not a POST. -/
def logged (req : Request) : Conn :=
  ((({ req := req } : Conn).log (.request req.method req.url)).log (.headers req.headers)).called
    .logRequest

/-- The text of a body delivered in chunks. -/
def bodyText : List String → String
  | [] => ""
  | chunk :: rest => chunk ++ bodyText rest

/-! ## Sample inputs -/

/-- The bytes of a text (ASCII). -/
def ascii (s : String) : List UInt8 :=
  s.data.map (fun c => UInt8.ofNat c.toNat)

/-- A deployment in `/srv/app`: the server source `index.js` beside a
`public` directory that holds `index.html` and `style.css`. -/
def siteFs : FileSystem :=
  { cwd := ["srv", "app"],
    entryAt := fun loc =>
      if loc = ["srv"] ∨ loc = ["srv", "app"] ∨ loc = ["srv", "app", "public"] then .directory
      else if loc = ["srv", "app", "index.js"] then .file (ascii "const http = require(\x27http\x27);")
      else if loc = ["srv", "app", "public", "index.html"] then .file (ascii "<h1>Home</h1>")
      else if loc = ["srv", "app", "public", "style.css"] then .file (ascii "h2 \x7b color: red \x7d")
      else .missing }

/-- The repository as it is: `index.js` alone, no `public` directory. -/
def bareFs : FileSystem :=
  { cwd := ["srv", "app"],
    entryAt := fun loc =>
      if loc = ["srv"] ∨ loc = ["srv", "app"] then .directory
      else if loc = ["srv", "app", "index.js"] then .file (ascii "const http = require(\x27http\x27);")
      else .missing }

/-! ## The two ways through the handler -/

/-- The router writes the response and nothing else. -/
theorem router_frame (rt : Runtime) (c : Conn) :
    router rt c = { c with res := (router rt c).res } := by
  unfold router
  simp only []
  split_ifs <;> rfl

/-- The router attaches no listener. -/
theorem router_listening (rt : Runtime) (c : Conn) :
    (router rt c).logListening = c.logListening ∧
    (router rt c).parseListening = c.parseListening := by
  rw [router_frame]
  exact ⟨rfl, rfl⟩

/-- Neither `serveStatic` nor the router after it attaches a listener. -/
theorem serveStatic_listening (rt : Runtime) (fs : FileSystem) (c : Conn) :
    (serveStatic rt fs (router rt) c).logListening = c.logListening ∧
    (serveStatic rt fs (router rt) c).parseListening = c.parseListening := by
  unfold serveStatic
  split_ifs
  · simp only []
    split <;> exact ⟨rfl, rfl⟩
  · exact router_listening rt _

/-- A request that is not a POST passes `logRequest` and `parseBody` without
touching the stream: the outcome is that of `serveStatic` followed by the
router. -/
theorem serve_non_post (rt : Runtime) (fs : FileSystem) (req : Request) (chunks : List String)
    (hpost : req.method ≠ "POST") :
    serve rt fs req chunks = serveStatic rt fs (router rt) ((logged req).called .parseBody) := by
  have hl := serveStatic_listening rt fs ((logged req).called .parseBody)
  have h0 : onRequest rt fs { req := req } =
      serveStatic rt fs (router rt) ((logged req).called .parseBody) := by
    simp [onRequest, logRequest, afterLog, parseBody, afterParse, logged, Conn.log,
      Conn.called, hpost]
  unfold serve
  simp only [h0]
  rw [if_neg]
  rw [hl.1, hl.2]
  simp [logged, Conn.log, Conn.called]

/-- While only the listeners of `logRequest` are attached, the stream of a
POST runs to its `end`; the `end` listener of `logRequest` then calls
`parseBody`, which attaches listeners that no event will reach. -/
theorem flow_log_only (rt : Runtime) (fs : FileSystem) (chunks : List String) (c : Conn)
    (hlog : c.logListening = true) (hparse : c.parseListening = false)
    (hpost : c.req.method = "POST") :
    flow rt fs chunks c =
      { c with
        endEmitted := true
        logBody := c.logBody ++ bodyText chunks
        console := c.console ++ [.body (c.logBody ++ bodyText chunks)]
        nexts := .logRequest :: c.nexts
        parseListening := true
        parseBuf := "" } := by
  induction chunks generalizing c with
  | nil =>
    simp [flow, emitEnd, hlog, hparse, logRequest.onEnd, afterLog, parseBody, Conn.log,
      Conn.called, hpost, bodyText]
  | cons chunk rest ih =>
    have h1 : emitData chunk c = { c with logBody := c.logBody ++ chunk } := by
      simp [emitData, hlog, hparse, logRequest.onData]
    rw [flow, h1, ih { c with logBody := c.logBody ++ chunk } hlog hparse hpost]
    simp [bodyText, String.append_assoc]

/-- A POST request is never answered, whatever its path, headers and body:
the stream has ended when `parseBody` attaches its listeners, so its `end`
listener never runs, the continuation of `parseBody` is never invoked and
`res.end` is never called. -/
theorem post_unanswered (rt : Runtime) (fs : FileSystem) (req : Request) (chunks : List String)
    (hpost : req.method = "POST") :
    serve rt fs req chunks =
      { req := req
        res := {}
        endEmitted := true
        logListening := true
        logBody := bodyText chunks
        parseListening := true
        parseBuf := ""
        console := [.request req.method req.url, .headers req.headers, .body (bodyText chunks)]
        nexts := [.logRequest] } := by
  have h0 : onRequest rt fs { req := req } =
      { req := req, logListening := true,
        console := [.request req.method req.url, .headers req.headers] } := by
    simp [onRequest, logRequest, Conn.log, hpost]
  unfold serve
  simp only [h0]
  rw [if_pos (Or.inl trivial), flow_log_only rt fs chunks _ rfl rfl hpost]
  simp

/-- The router ends a fresh response exactly once, on every branch. -/
theorem router_ends_once (rt : Runtime) (c : Conn) (hres : c.res.endCalls = 0) :
    (router rt c).res.endCalls = 1 := by
  unfold router
  simp only []
  split_ifs <;>
    simp [sendJSONResponse, handleError, Res.endWith, Res.setHeader, hres]

/-- A request that is not a POST is answered exactly once. -/
theorem non_post_answered_once (rt : Runtime) (fs : FileSystem) (req : Request)
    (chunks : List String) (hpost : req.method ≠ "POST") :
    (serve rt fs req chunks).res.endCalls = 1 := by
  rw [serve_non_post rt fs req chunks hpost]
  unfold serveStatic
  split_ifs
  · simp only []
    split <;> simp [Res.endWith, Res.setHeader, logged, Conn.log, Conn.called]
  · exact router_ends_once rt _ rfl

/-! ## C1: methods other than GET and POST -/

/-- C1, as stated, fails: a DELETE request for the path of an existing
static file is answered by `serveStatic` with status 200 and the bytes of the
file, not with 405. -/
theorem delete_of_static_file_is_served :
    (serve node siteFs { method := "DELETE", url := "/style.css" } []).res =
      { statusCode := 200
        headers := [("Content-type", "text/css")]
        endCalls := 1
        body := some (.bytes (ascii "h2 \x7b color: red \x7d")) } ∧
    (serve node siteFs { method := "DELETE", url := "/style.css" } []).res.statusCode ≠ 405 ∧
    (serve node siteFs { method := "DELETE", url := "/style.css" } []).res.body
      ≠ some (.text "<h2>Method Not Allowed</h2>") := by
  decide

/-- C1, amended: a request whose method is neither GET nor POST, for a URL
whose path names nothing under `./public`, gets status 405, content type
`text/html` and the body `<h2>Method Not Allowed</h2>`, and the response is
ended once. -/
theorem other_method_not_allowed (rt : Runtime) (fs : FileSystem) (req : Request)
    (chunks : List String) (hget : req.method ≠ "GET") (hpost : req.method ≠ "POST")
    (hfile : fs.pathExists (publicPath rt req.url) = false) :
    (serve rt fs req chunks).res.statusCode = 405 ∧
    (serve rt fs req chunks).res.getHeader "Content-Type" = some "text/html" ∧
    (serve rt fs req chunks).res.body = some (.text "<h2>Method Not Allowed</h2>") ∧
    (serve rt fs req chunks).res.endCalls = 1 := by
  rw [serve_non_post rt fs req chunks hpost]
  simp [serveStatic, hfile, router, hget, hpost, handleError, Res.setHeader, Res.endWith,
    Res.getHeader, setHeaderIn, Conn.called, Conn.log, logged]

/-- Witness of `other_method_not_allowed`: DELETE `/nope` where `public`
does not exist. -/
theorem other_method_not_allowed_witness :
    (serve node bareFs { method := "DELETE", url := "/nope" } ["x"]).res.statusCode = 405 ∧
    (serve node bareFs { method := "DELETE", url := "/nope" } ["x"]).res.getHeader "Content-Type"
      = some "text/html" ∧
    (serve node bareFs { method := "DELETE", url := "/nope" } ["x"]).res.body
      = some (.text "<h2>Method Not Allowed</h2>") ∧
    (serve node bareFs { method := "DELETE", url := "/nope" } ["x"]).res.endCalls = 1 :=
  other_method_not_allowed node bareFs { method := "DELETE", url := "/nope" } ["x"]
    (by decide) (by decide) (by decide)

/-! ## C2: GET `/` -/

/-- C2, as stated, fails: when `public` exists and holds `index.html`, a GET
for `/` is answered by `serveStatic` with the bytes of that file. -/
theorem get_root_serves_public_index :
    (node.urlParse "/").pathname = "/" ∧
    (serve node siteFs { method := "GET", url := "/" } []).res =
      { statusCode := 200
        headers := [("Content-type", "text/html")]
        endCalls := 1
        body := some (.bytes (ascii "<h1>Home</h1>")) } ∧
    (serve node siteFs { method := "GET", url := "/" } []).res.body
      ≠ some (.text "<h2>Hello, Digistar!</h2>") := by
  decide

/-- C2, amended: a GET request whose URL path is `/`, with any query and
headers, when nothing exists at `./public/`, gets status 200, content type
`text/html` and the body `<h2>Hello, Digistar!</h2>`. -/
theorem get_root_hello (rt : Runtime) (fs : FileSystem) (req : Request) (chunks : List String)
    (hget : req.method = "GET") (hpath : (rt.urlParse req.url).pathname = "/")
    (hnone : fs.pathExists "./public/" = false) :
    (serve rt fs req chunks).res.statusCode = 200 ∧
    (serve rt fs req chunks).res.getHeader "Content-Type" = some "text/html" ∧
    (serve rt fs req chunks).res.body = some (.text "<h2>Hello, Digistar!</h2>") ∧
    (serve rt fs req chunks).res.endCalls = 1 := by
  have hpost : req.method ≠ "POST" := by rw [hget]; decide
  have hfile : fs.pathExists (publicPath rt req.url) = false := by
    rw [publicPath, hpath]; exact hnone
  rw [serve_non_post rt fs req chunks hpost]
  simp [serveStatic, hfile, router, hget, hpath, Res.setHeader, Res.endWith,
    Res.getHeader, setHeaderIn, Conn.called, Conn.log, logged]

/-- Witness of `get_root_hello`: GET `/?x=1` with a header, where `public`
does not exist. -/
theorem get_root_hello_witness :
    (serve node bareFs { method := "GET", url := "/?x=1", headers := [("host", "a")] } []).res.statusCode
      = 200 ∧
    (serve node bareFs { method := "GET", url := "/?x=1", headers := [("host", "a")] } []).res.getHeader
      "Content-Type" = some "text/html" ∧
    (serve node bareFs { method := "GET", url := "/?x=1", headers := [("host", "a")] } []).res.body
      = some (.text "<h2>Hello, Digistar!</h2>") ∧
    (serve node bareFs { method := "GET", url := "/?x=1", headers := [("host", "a")] } []).res.endCalls
      = 1 :=
  get_root_hello node bareFs { method := "GET", url := "/?x=1", headers := [("host", "a")] } []
    (by decide) (by decide) (by decide)

/-! ## C3: GET `/about` -/

/-- C3, as stated, fails for the empty value: for `/about?name=` the query
holds `name` with the empty string as its value, and the greeting names
`Digistar`, not the empty string. -/
theorem about_empty_name_greets_digistar :
    getProp (node.queryOf "/about?name=") "name" = some (.one "") ∧
    (serve node bareFs { method := "GET", url := "/about?name=" } []).res.body =
      some (.text "<h2>Hello, Ini Halaman About Digistar!</h2>") ∧
    (serve node bareFs { method := "GET", url := "/about?name=" } []).res.body ≠
      some (.text ("<h2>Hello, Ini Halaman About " ++ "" ++ "!</h2>")) := by
  decide

/-- C3, amended: a GET request for `/about` that reaches the router (nothing
exists at `./public/about`) gets status 200 and the body
`<h2>Hello, Ini Halaman About X!</h2>`, where X is the value of `name` when
that is a non-empty string, the values joined by commas when `name` is given
more than once, and `Digistar` when `name` is absent or empty. -/
theorem about_greeting (rt : Runtime) (fs : FileSystem) (req : Request) (chunks : List String)
    (hget : req.method = "GET") (hpath : (rt.urlParse req.url).pathname = "/about")
    (hnone : fs.pathExists "./public/about" = false) :
    (serve rt fs req chunks).res.statusCode = 200 ∧
    (serve rt fs req chunks).res.getHeader "Content-Type" = some "text/html" ∧
    (serve rt fs req chunks).res.endCalls = 1 ∧
    (∀ x : String, getProp (rt.queryOf req.url) "name" = some (.one x) → x ≠ "" →
      (serve rt fs req chunks).res.body =
        some (.text ("<h2>Hello, Ini Halaman About " ++ x ++ "!</h2>"))) ∧
    (∀ xs : List String, getProp (rt.queryOf req.url) "name" = some (.many xs) →
      (serve rt fs req chunks).res.body =
        some (.text ("<h2>Hello, Ini Halaman About " ++ ",".intercalate xs ++ "!</h2>"))) ∧
    (getProp (rt.queryOf req.url) "name" = none ∨
        getProp (rt.queryOf req.url) "name" = some (.one "") →
      (serve rt fs req chunks).res.body =
        some (.text "<h2>Hello, Ini Halaman About Digistar!</h2>")) := by
  have hpost : req.method ≠ "POST" := by rw [hget]; decide
  have hfile : fs.pathExists (publicPath rt req.url) = false := by
    rw [publicPath, hpath]; exact hnone
  rw [serve_non_post rt fs req chunks hpost]
  have hr : (serveStatic rt fs (router rt) ((logged req).called .parseBody)).res =
      { statusCode := 200
        headers := [("Content-Type", "text/html")]
        endCalls := 1
        body := some (.text ("<h2>Hello, Ini Halaman About " ++ aboutName (rt.queryOf req.url)
          ++ "!</h2>")) } := by
    simp [serveStatic, hfile, router, hget, hpath, Res.setHeader, Res.endWith,
      setHeaderIn, Conn.called, Conn.log, logged]
  rw [hr]
  refine ⟨rfl, ?_, rfl, ?_, ?_, ?_⟩
  · simp [Res.getHeader]
  · intro x hx hne
    simp [aboutName, hx, truthy, hne, QVal.toText]
  · intro xs hxs
    simp [aboutName, hxs, truthy, QVal.toText]
  · intro h
    rcases h with h | h <;> simp [aboutName, h, truthy]

/-- Witness of `about_greeting`: GET `/about?name=Budi` where `public` does
not exist. -/
theorem about_greeting_witness :
    getProp (node.queryOf "/about?name=Budi") "name" = some (.one "Budi") ∧
    (serve node bareFs { method := "GET", url := "/about?name=Budi" } []).res.body =
      some (.text "<h2>Hello, Ini Halaman About Budi!</h2>") :=
  ⟨by decide,
   (about_greeting node bareFs { method := "GET", url := "/about?name=Budi" } []
      (by decide) (by decide) (by decide)).2.2.2.1 "Budi" (by decide) (by decide)⟩

/-! ## C7: static files -/

/-- The answer of `serveStatic` for a regular file that is read. -/
theorem serveStatic_file_response (rt : Runtime) (fs : FileSystem) (next : Conn → Conn)
    (c : Conn) (content : List UInt8) (hres : c.res = {})
    (hfile : fs.stat (publicPath rt c.req.url) = .file content) :
    serveStatic rt fs next c =
      { c with res :=
          { statusCode := 200
            headers := [("Content-type", contentTypeOf (parseExt (publicPath rt c.req.url)))]
            endCalls := 1
            body := some (.bytes content) } } := by
  have hex : fs.pathExists (publicPath rt c.req.url) = true := by
    simp [FileSystem.pathExists, hfile]
  have hdir : fs.isDirectory (publicPath rt c.req.url) = false := by
    simp [FileSystem.isDirectory, hfile]
  have hread : fs.readFile (publicPath rt c.req.url) = .ok content := by
    simp [FileSystem.readFile, hfile]
  simp [serveStatic, servedPath, hex, hdir, hread, hres, Res.setHeader, Res.endWith,
    setHeaderIn]

/-- C7: when the URL path names a regular file under `./public` whose read
succeeds, `serveStatic` answers with status 200, the bytes of the file, and
the content type of the table entry for the extension of the path,
`text/plain` for an extension outside the table; the state is otherwise
unchanged, whatever the continuation, so the router does not run. -/
theorem serveStatic_serves_file (rt : Runtime) (fs : FileSystem) (next : Conn → Conn) (c : Conn)
    (content : List UInt8) (hres : c.res = {})
    (hfile : fs.stat (publicPath rt c.req.url) = .file content) :
    serveStatic rt fs next c =
      { c with res :=
          { statusCode := 200
            headers := [("Content-type", contentTypeOf (parseExt (publicPath rt c.req.url)))]
            endCalls := 1
            body := some (.bytes content) } } ∧
    (contentTypeOf ".html" = "text/html" ∧ contentTypeOf ".js" = "text/javascript" ∧
      contentTypeOf ".css" = "text/css" ∧ contentTypeOf ".json" = "application/json" ∧
      contentTypeOf ".png" = "image/png" ∧ contentTypeOf ".jpg" = "image/jpeg" ∧
      contentTypeOf ".ico" = "image/x-icon" ∧ contentTypeOf ".wav" = "audio/wav" ∧
      contentTypeOf ".mp4" = "video/mp4" ∧ contentTypeOf ".woff" = "application/font-woff" ∧
      contentTypeOf ".ttf" = "application/font-ttf" ∧
      contentTypeOf ".eot" = "application/vnd.ms-fontobject" ∧
      contentTypeOf ".otf" = "application/font-otf" ∧
      contentTypeOf ".svg" = "application/image/svg+xml") ∧
    (∀ ext : String,
      ext ∉ [".html", ".js", ".css", ".json", ".png", ".jpg", ".ico", ".wav", ".mp4", ".woff",
        ".ttf", ".eot", ".otf", ".svg"] →
      contentTypeOf ext = "text/plain") := by
  refine ⟨serveStatic_file_response rt fs next c content hres hfile, by decide, ?_⟩
  · intro ext hext
    simp only [List.mem_cons, List.mem_singleton, List.not_mem_nil, not_or, or_false] at hext
    obtain ⟨h1, h2, h3, h4, h5, h6, h7, h8, h9, h10, h11, h12, h13, h14⟩ := hext
    simp [contentTypeOf, getProp, mimeMap, List.find?, Ne.symm h1, Ne.symm h2, Ne.symm h3,
      Ne.symm h4, Ne.symm h5, Ne.symm h6, Ne.symm h7, Ne.symm h8, Ne.symm h9, Ne.symm h10,
      Ne.symm h11, Ne.symm h12, Ne.symm h13, Ne.symm h14]

/-- Witness of `serveStatic_serves_file`: `/style.css` in the sample site is
served as `text/css`. -/
theorem serveStatic_serves_file_witness :
    parseExt (publicPath node "/style.css") = ".css" ∧
    (serveStatic node siteFs (router node) { req := { method := "GET", url := "/style.css" } }).res =
      { statusCode := 200
        headers := [("Content-type", "text/css")]
        endCalls := 1
        body := some (.bytes (ascii "h2 \x7b color: red \x7d")) } :=
  ⟨by decide,
   by
    have h := (serveStatic_serves_file node siteFs (router node)
      { req := { method := "GET", url := "/style.css" } } (ascii "h2 \x7b color: red \x7d") rfl
      (by decide)).1
    rw [h]
    decide⟩

/-! ## POST requests: C4, C5, C6, C8, C10

`logRequest` reads the body stream to its `end` before it calls `next`, so
`parseBody` attaches its listeners to a stream that has ended.  Every POST
request therefore ends unanswered (`post_unanswered`).  The theorems below
evaluate the handler at the inputs of the claims; `parseBody_*` show what
`parseBody` does when it is given a stream that has not been read. -/

/-- While only the listeners of `parseBody` are attached, the stream runs to
its `end` and the `end` listener of `parseBody` sees the whole body. -/
theorem flow_parse_only (rt : Runtime) (fs : FileSystem) (chunks : List String) (c : Conn)
    (hlog : c.logListening = false) (hparse : c.parseListening = true) :
    flow rt fs chunks c =
      parseBody.onEnd rt (afterParse rt fs)
        { c with endEmitted := true, parseBuf := c.parseBuf ++ bodyText chunks } := by
  induction chunks generalizing c with
  | nil => simp [flow, emitEnd, hlog, hparse, bodyText]
  | cons chunk rest ih =>
    have h1 : emitData chunk c = { c with parseBuf := c.parseBuf ++ chunk } := by
      simp [emitData, hlog, hparse, parseBody.onData]
    rw [flow, h1, ih { c with parseBuf := c.parseBuf ++ chunk } hlog hparse]
    simp [bodyText, String.append_assoc]

/-- Given an unread stream, `parseBody` answers a POST whose content type is
`application/json` and whose body `JSON.parse` rejects with status 400 and
the JSON of `error: "Invalid JSON"`; it does not call `next` and leaves
`req.body` unset. -/
theorem parseBody_unread_stream_invalid_json (rt : Runtime) (fs : FileSystem) (c : Conn)
    (chunks : List String) (hpost : c.req.method = "POST") (hlog : c.logListening = false)
    (hres : c.res = {}) (htype : c.header "content-type" = some "application/json")
    (hbad : rt.jsonParse (bodyText chunks) = none) :
    flow rt fs chunks (parseBody (afterParse rt fs) c) =
      { c with
        endEmitted := true
        parseListening := true
        parseBuf := bodyText chunks
        res :=
          { statusCode := 400
            headers := [("Content-Type", "application/json")]
            endCalls := 1
            body := some (.text "\x7b\n  \"error\": \"Invalid JSON\"\n\x7d") } } := by
  have h0 : parseBody (afterParse rt fs) c = { c with parseListening := true, parseBuf := "" } := by
    simp [parseBody, hpost]
  rw [h0, flow_parse_only rt fs chunks { c with parseListening := true, parseBuf := "" } hlog rfl]
  have ht : Conn.header { c with endEmitted := true, parseListening := true,
                                 parseBuf := "" ++ bodyText chunks } "content-type"
      = some "application/json" := htype
  unfold parseBody.onEnd
  rw [if_pos ht]
  simp only [String.empty_append, hbad, hres]
  congr 1

/-- Given an unread stream, `parseBody` attaches the decoded value of a JSON
body and calls `next`; for `/submit`, with no file at `./public/submit`, the
answer is then the JSON of `message` and `data`, here for the body
`{"a":1}` in two chunks. -/
theorem parseBody_unread_stream_submit :
    (flow node bareFs ["\x7b\"a\"", ":1\x7d"]
      (parseBody (afterParse node bareFs)
        { req := { method := "POST", url := "/submit",
                   headers := [("content-type", "application/json")] } })).res =
      { statusCode := 200
        headers := [("Content-Type", "application/json")]
        endCalls := 1
        body := some (.text
          "\x7b\n  \"message\": \"Data submitted successfully!\",\n  \"data\": \x7b\n    \"a\": 1\n  \x7d\n\x7d") } := by
  decide

/-- For a request that is not a POST, `parseBody` calls `next` at once and
attaches nothing. -/
theorem parseBody_non_post (next : Conn → Conn) (c : Conn) (hpost : c.req.method ≠ "POST") :
    parseBody next c = next (c.called .parseBody) := by
  simp [parseBody, hpost]

/-- C4, evaluated: the POST of `{"a":1}` to `/submit` with content type
`application/json` ends with the response untouched: `res.end` is never
called, `req.body` is unset, and only `logRequest` invoked its
continuation. -/
theorem post_submit_json_unanswered (rt : Runtime) (fs : FileSystem) :
    (serve rt fs { method := "POST", url := "/submit",
                   headers := [("content-type", "application/json")] }
      ["\x7b\"a\":1\x7d"]).res = {} ∧
    (serve rt fs { method := "POST", url := "/submit",
                   headers := [("content-type", "application/json")] }
      ["\x7b\"a\":1\x7d"]).nexts = [.logRequest] := by
  rw [post_unanswered rt fs _ _ rfl]
  exact ⟨rfl, rfl⟩

/-- C5, evaluated: the POST of the malformed body `{bad` with content type
`application/json` is not answered with 400: the status stays at its initial
200, no header is set and `res.end` is never called. -/
theorem post_malformed_json_unanswered (rt : Runtime) (fs : FileSystem) :
    (serve rt fs { method := "POST", url := "/submit",
                   headers := [("content-type", "application/json")] }
      ["\x7bbad"]).res.statusCode = 200 ∧
    (serve rt fs { method := "POST", url := "/submit",
                   headers := [("content-type", "application/json")] }
      ["\x7bbad"]).res.headers = [] ∧
    (serve rt fs { method := "POST", url := "/submit",
                   headers := [("content-type", "application/json")] }
      ["\x7bbad"]).res.endCalls = 0 := by
  rw [post_unanswered rt fs _ _ rfl]
  exact ⟨rfl, rfl, rfl⟩

/-- C6, evaluated: a POST to `/`, which is no route, is not answered with
404: `res.end` is never called and neither `serveStatic` nor the router
runs. -/
theorem post_unrouted_unanswered (rt : Runtime) (fs : FileSystem) (chunks : List String) :
    (serve rt fs { method := "POST", url := "/" } chunks).res.endCalls = 0 ∧
    (serve rt fs { method := "POST", url := "/" } chunks).res.statusCode = 200 ∧
    Stage.serveStatic ∉ (serve rt fs { method := "POST", url := "/" } chunks).nexts := by
  rw [post_unanswered rt fs _ _ rfl]
  exact ⟨rfl, rfl, by simp⟩

/-- The GET half of C6: a GET request whose path is none of `/`, `/info`,
`/about`, when nothing exists at `./public` + path, gets status 404, content
type `text/html` and the body `<h2>Page Not Found</h2>`. -/
theorem get_unrouted_not_found (rt : Runtime) (fs : FileSystem) (req : Request)
    (chunks : List String) (hget : req.method = "GET")
    (h1 : (rt.urlParse req.url).pathname ≠ "/") (h2 : (rt.urlParse req.url).pathname ≠ "/info")
    (h3 : (rt.urlParse req.url).pathname ≠ "/about")
    (hfile : fs.pathExists (publicPath rt req.url) = false) :
    (serve rt fs req chunks).res =
      { statusCode := 404
        headers := [("Content-Type", "text/html")]
        endCalls := 1
        body := some (.text "<h2>Page Not Found</h2>") } := by
  have hpost : req.method ≠ "POST" := by rw [hget]; decide
  rw [serve_non_post rt fs req chunks hpost]
  simp [serveStatic, hfile, router, hget, h1, h2, h3, handleError, Res.setHeader, Res.endWith,
    setHeaderIn, Conn.called, Conn.log, logged]

/-- C8, evaluated: a POST to `/submit` with content type `text/plain` is not
answered: `parseBody` never invokes its continuation and `res.end` is never
called. -/
theorem post_other_content_type_unanswered (rt : Runtime) (fs : FileSystem) :
    (serve rt fs { method := "POST", url := "/submit", headers := [("content-type", "text/plain")] }
      ["hello"]).res.endCalls = 0 ∧
    Stage.parseBody ∉
      (serve rt fs { method := "POST", url := "/submit", headers := [("content-type", "text/plain")] }
        ["hello"]).nexts := by
  rw [post_unanswered rt fs _ _ rfl]
  exact ⟨rfl, by simp⟩

/-- C10, evaluated: for every POST request, at the end of the stream
`logRequest` has seen the whole body and invoked its continuation, and
`parseBody` has attached its listeners but received nothing: its buffer is
empty, it has neither ended the response nor invoked its continuation, and
the response is never ended. -/
theorem post_stream_ends_before_parseBody (rt : Runtime) (fs : FileSystem) (url : String)
    (headers : List (String × String)) (chunks : List String) :
    (serve rt fs { method := "POST", url := url, headers := headers } chunks).endEmitted = true ∧
    (serve rt fs { method := "POST", url := url, headers := headers } chunks).logBody
      = bodyText chunks ∧
    (serve rt fs { method := "POST", url := url, headers := headers } chunks).parseListening
      = true ∧
    (serve rt fs { method := "POST", url := url, headers := headers } chunks).parseBuf = "" ∧
    (serve rt fs { method := "POST", url := url, headers := headers } chunks).nexts
      = [.logRequest] ∧
    (serve rt fs { method := "POST", url := url, headers := headers } chunks).res.endCalls = 0 := by
  rw [post_unanswered rt fs _ _ rfl]
  exact ⟨rfl, rfl, rfl, rfl, rfl, rfl⟩

/-! ## C9: the public root -/

/-- C9, evaluated: for the URL `/../index.js` the path that `serveStatic`
checks and reads is `./public/../index.js`, which names `index.js` in the
working directory, outside `./public`; the server answers with the bytes of
that file. -/
theorem dot_dot_reads_outside_public :
    publicPath node "/../index.js" = "./public/../index.js" ∧
    siteFs.resolve (publicPath node "/../index.js") = some ["srv", "app", "index.js"] ∧
    siteFs.underPublic ["srv", "app", "index.js"] = false ∧
    (serve node siteFs { method := "GET", url := "/../index.js" } []).res =
      { statusCode := 200
        headers := [("Content-type", "text/javascript")]
        endCalls := 1
        body := some (.bytes (ascii "const http = require(\x27http\x27);")) } := by
  decide

/-! ## Further properties of the stages -/

/-- Values of `path.parse(p).ext` on sample paths: the extension starts at
the last dot of the last component; a component that only starts with a dot
has none. -/
theorem parseExt_samples :
    parseExt "./public/style.css" = ".css" ∧
    parseExt "./public/a.b/archive.tar.gz" = ".gz" ∧
    parseExt "./public/docs//index.html" = ".html" ∧
    parseExt "./public/.profile" = "" ∧
    parseExt "./public/README" = "" ∧
    parseExt "./public/name." = "." ∧
    parseExt "./public/.." = "" ∧
    parseExt "./public/photo.JPG" = ".JPG" := by
  decide

/-- End to end, a request that is not a POST and whose URL path names a
readable regular file under `./public` gets the file, whatever its method. -/
theorem static_file_answer (rt : Runtime) (fs : FileSystem) (req : Request)
    (chunks : List String) (content : List UInt8) (hpost : req.method ≠ "POST")
    (hfile : fs.stat (publicPath rt req.url) = .file content) :
    (serve rt fs req chunks).res =
      { statusCode := 200
        headers := [("Content-type", contentTypeOf (parseExt (publicPath rt req.url)))]
        endCalls := 1
        body := some (.bytes content) } := by
  rw [serve_non_post rt fs req chunks hpost]
  rw [(serveStatic_file_response rt fs (router rt) ((logged req).called .parseBody) content rfl
    hfile)]
  rfl

/-- A directory under `./public` is answered with its `index.html`, and with
status 500 when that cannot be read. -/
theorem static_directory_answer :
    (serve node siteFs { method := "GET", url := "/" } []).res.body
      = some (.bytes (ascii "<h1>Home</h1>")) ∧
    (serve node siteFs { method := "GET", url := "/style.css/" } []).res.statusCode = 404 ∧
    (serve node
      { cwd := ["srv", "app"],
        entryAt := fun loc =>
          if loc = ["srv"] ∨ loc = ["srv", "app"] ∨ loc = ["srv", "app", "public"] then .directory
          else .missing }
      { method := "GET", url := "/" } []).res =
      { statusCode := 500
        headers := []
        endCalls := 1
        body := some (.text
          "Error: ENOENT: no such file or directory, open \x27./public//index.html\x27") } := by
  decide

/-- A request that is not a POST passes the stages in order: either
`serveStatic` ends the response after `logRequest` and `parseBody` have each
invoked their continuation once, or all three have and the router ends it. -/
theorem non_post_stage_order (rt : Runtime) (fs : FileSystem) (req : Request)
    (chunks : List String) (hpost : req.method ≠ "POST") :
    (fs.pathExists (publicPath rt req.url) = true ∧
      (serve rt fs req chunks).nexts = [.parseBody, .logRequest]) ∨
    (fs.pathExists (publicPath rt req.url) = false ∧
      (serve rt fs req chunks).nexts = [.serveStatic, .parseBody, .logRequest]) := by
  rw [serve_non_post rt fs req chunks hpost]
  cases hex : fs.pathExists (publicPath rt req.url)
  · right
    refine ⟨rfl, ?_⟩
    have h : serveStatic rt fs (router rt) ((logged req).called .parseBody) =
        router rt (((logged req).called .parseBody).called .serveStatic) := by
      simp [serveStatic, logged, Conn.called, Conn.log, hex]
    rw [h, router_frame]
    rfl
  · left
    refine ⟨rfl, ?_⟩
    unfold serveStatic
    have hex2 : fs.pathExists (publicPath rt ((logged req).called .parseBody).req.url) = true := hex
    rw [if_pos hex2]
    simp only []
    split <;> rfl

/-- Splitting a path never gives the empty list. -/
theorem splitSlash_ne_nil (cs : List Char) : splitSlash cs ≠ [] := by
  cases cs with
  | nil => simp [splitSlash]
  | cons c cs =>
    unfold splitSlash
    split
    · simp
    · split <;> simp

/-- Walking components none of which is `..` never leaves the directory the
walk starts in. -/
theorem walk_stays_below (fs : FileSystem) (base : List String) (comps cur loc : List String)
    (hcur : base <+: cur) (hdots : ".." ∉ comps) (h : fs.walk cur comps = some loc) :
    base <+: loc := by
  induction comps generalizing cur with
  | nil =>
    simp only [FileSystem.walk, Option.some.injEq] at h
    exact h ▸ hcur
  | cons comp rest ih =>
    have hrest : ".." ∉ rest := fun hm => hdots (List.mem_cons_of_mem _ hm)
    have hcomp : comp ≠ ".." := fun he => hdots (he ▸ List.mem_cons_self _ _)
    unfold FileSystem.walk at h
    split_ifs at h with h1 h2
    · exact ih cur hcur hrest h
    · exact ih (cur ++ [comp]) (hcur.trans (List.prefix_append cur [comp])) hrest h

/-- Where C9 does hold: when the pathname starts with `/` and none of its
components is `..`, the location `serveStatic` checks is `public` in the
working directory or lies below it (symbolic links are not modelled). -/
theorem public_path_below_public (rt : Runtime) (fs : FileSystem) (u rest : String)
    (loc : List String) (hslash : (rt.urlParse u).pathname = "/" ++ rest)
    (hdots : ".." ∉ splitSlash rest.data)
    (h : fs.resolve (publicPath rt u) = some loc) :
    (fs.cwd ++ ["public"]) <+: loc := by
  obtain ⟨w, ws, hw⟩ := List.exists_cons_of_ne_nil (splitSlash_ne_nil rest.data)
  have hsplit : splitSlash ("./public" ++ ("/" ++ rest)).data = "." :: "public" :: w :: ws := by
    simp [splitSlash, hw]
  rw [publicPath, hslash] at h
  unfold FileSystem.resolve at h
  rw [hsplit] at h
  have hw2 : ".." ∉ w :: ws := hw ▸ hdots
  have h0 : fs.walk fs.cwd ("." :: "public" :: w :: ws) = some loc := h
  rw [FileSystem.walk] at h0
  by_cases hd : fs.dirAt fs.cwd = true
  · rw [if_pos hd, if_pos (Or.inr rfl), FileSystem.walk, if_pos hd, if_neg (by decide),
      if_neg (by decide)] at h0
    exact walk_stays_below fs (fs.cwd ++ ["public"]) (w :: ws) _ loc (List.prefix_refl _) hw2 h0
  · rw [if_neg hd] at h0
    exact absurd h0 (by simp)

/-! ## The extension computed by `path.parse` -/

/-- The scan of the first `k` characters does not look further. -/
theorem scanBack_append (xs ys : List Char) (k : Nat) (s : ExtScan) (hk : k ≤ xs.length) :
    scanBack (xs ++ ys) 0 k s = scanBack xs 0 k s := by
  induction k generalizing s with
  | zero => rfl
  | succ k ih =>
    have hlt : k < xs.length := hk
    have hget : (xs ++ ys).getD (0 + k) (Char.ofNat 0) = xs.getD (0 + k) (Char.ofNat 0) := by
      simp [List.getD_eq_getElem?_getD, List.getElem?_append_left hlt]
    unfold scanBack
    simp only [hget]
    rw [ih _ (Nat.le_of_lt hlt), ih _ (Nat.le_of_lt hlt)]

/-- The loop over the indices is the recursion over the reversed path. -/
theorem scanBack_eq_scanRev (xs : List Char) (s : ExtScan) :
    scanBack xs 0 xs.length s = scanRev xs.reverse s := by
  induction xs using List.reverseRecOn generalizing s with
  | nil => rfl
  | append_singleton xs c ih =>
    have hget : (xs ++ [c]).getD xs.length (Char.ofNat 0) = c := by
      simp [List.getD_eq_getElem?_getD]
    rw [List.length_append, List.length_singleton, List.reverse_append, List.reverse_singleton,
      List.singleton_append]
    unfold scanBack scanRev
    simp only [List.length_reverse, Nat.zero_add]
    rw [scanBack_append xs [c] _ _ (Nat.le_refl _), scanBack_append xs [c] _ _ (Nat.le_refl _),
      ih, ih, hget]

/-- Marking the end leaves `startDot` alone. -/
theorem markEnd_startDot (n : Nat) (s : ExtScan) : (markEnd n s).startDot = s.startDot := by
  unfold markEnd; split <;> rfl

/-- The end is marked once. -/
theorem markEnd_markEnd (m n : Nat) (s : ExtScan) : markEnd m (markEnd n s) = markEnd n s := by
  unfold markEnd; split <;> simp_all

/-- Before any dot is seen, a character other than a dot only marks the end. -/
theorem scanStep_plain (i : Nat) (c : Nat) (s : ExtScan) (hc : c ≠ 46) (hs : s.startDot = none) :
    scanStep i c s = markEnd (i + 1) s := by
  have h := markEnd_startDot (i + 1) s
  unfold markEnd at h ⊢
  unfold scanStep
  simp only [hc, if_false]
  rw [h, hs]
  simp

/-- The characters after the last dot only mark the end of the component. -/
theorem scanRev_tail (r rest : List Char) (s : ExtScan) (hs : s.startDot = none)
    (hr : ∀ c ∈ r, c.toNat ≠ 47 ∧ c.toNat ≠ 46) :
    scanRev (r ++ rest) s = scanRev rest (if r = [] then s else markEnd (r.length + rest.length) s) := by
  induction r generalizing s with
  | nil => rfl
  | cons c r ih =>
    have hc := hr c (List.mem_cons_self _ _)
    have hr2 : ∀ c ∈ r, c.toNat ≠ 47 ∧ c.toNat ≠ 46 := fun d hd => hr d (List.mem_cons_of_mem _ hd)
    rw [List.cons_append, scanRev, if_neg hc.1, scanStep_plain _ _ _ hc.2 hs,
      ih _ ((markEnd_startDot _ _).trans hs) hr2]
    simp only [List.length_append, List.length_cons, reduceCtorEq, if_false]
    congr 1
    split
    · congr 1; omega
    · rw [markEnd_markEnd]; congr 1; omega

/-- The first dot seen is recorded in `startDot`. -/
theorem scanStep_first_dot (i : Nat) (s : ExtScan) (hs : s.startDot = none) :
    scanStep i 46 s = { markEnd (i + 1) s with startDot := some i } := by
  have h := markEnd_startDot (i + 1) s
  unfold markEnd at h ⊢
  unfold scanStep
  simp only [if_true]
  rw [h, hs]
  simp

/-- Once a dot is recorded, each character sets `preDotState`. -/
theorem scanStep_before_dot (i : Nat) (c : Nat) (s : ExtScan) (hs : s.startDot ≠ none)
    (he : s.endIdx ≠ none) :
    scanStep i c s = { s with preDotState := if c = 46 then 1 else -1 } := by
  unfold scanStep
  simp only [he, if_false, hs, ne_eq, not_false_eq_true, if_true]
  by_cases hc : c = 46
  · simp only [hc, if_true]
    by_cases h1 : s.preDotState = 1
    · simp [h1]
      cases s
      simp_all
    · simp [h1]
  · simp [hc]

/-- The characters of the last component before its last dot: the leftmost
one decides `preDotState`. -/
theorem scanRev_stem (r rest : List Char) (s : ExtScan) (hs : s.startDot ≠ none)
    (he : s.endIdx ≠ none) (hr : ∀ c ∈ r, c.toNat ≠ 47) :
    scanRev (r ++ rest) s =
      scanRev rest
        (match r.getLast? with
         | none => s
         | some c => { s with preDotState := if c.toNat = 46 then 1 else -1 }) := by
  induction r generalizing s with
  | nil => rfl
  | cons c r ih =>
    have hc := hr c (List.mem_cons_self _ _)
    have hr2 : ∀ c ∈ r, c.toNat ≠ 47 := fun d hd => hr d (List.mem_cons_of_mem _ hd)
    rw [List.cons_append, scanRev, if_neg hc, scanStep_before_dot _ _ _ hs he]
    rw [ih { s with preDotState := if c.toNat = 46 then 1 else -1 } hs he hr2]
    cases r with
    | nil => rfl
    | cons d r2 =>
      rw [List.getLast?_cons_cons]
      cases hl : (d :: r2).getLast? with
      | none => simp at hl
      | some x => rfl

/-- The scan over a path `pre/stem.ext`. -/
theorem scanRev_stem_dot_ext (pre stem ext : List Char) (c0 : Char) (stem0 : List Char)
    (hstem : stem = c0 :: stem0) (hn : ∀ c ∈ stem, c.toNat ≠ 47)
    (he : ∀ c ∈ ext, c.toNat ≠ 47 ∧ c.toNat ≠ 46) :
    scanRev (pre ++ Char.ofNat 47 :: (stem ++ Char.ofNat 46 :: ext)).reverse {} =
      { startDot := some (pre.length + 1 + stem.length)
        startPart := pre.length + 1
        endIdx := some (pre.length + 1 + stem.length + 1 + ext.length)
        matchedSlash := false
        preDotState := if c0.toNat = 46 then 1 else -1 } := by
  have hrev : (pre ++ Char.ofNat 47 :: (stem ++ Char.ofNat 46 :: ext)).reverse =
      ext.reverse ++ (Char.ofNat 46 :: (stem.reverse ++ (Char.ofNat 47 :: pre.reverse))) := by
    simp
  have he2 : ∀ c ∈ ext.reverse, c.toNat ≠ 47 ∧ c.toNat ≠ 46 := fun c hc =>
    he c (List.mem_reverse.mp hc)
  have hn2 : ∀ c ∈ stem.reverse, c.toNat ≠ 47 := fun c hc => hn c (List.mem_reverse.mp hc)
  have hlast : stem.reverse.getLast? = some c0 := by
    rw [List.getLast?_reverse, hstem]; rfl
  have hB : scanStep (stem.reverse ++ (Char.ofNat 47 :: pre.reverse)).length 46
      (if ext.reverse = [] then ({} : ExtScan)
        else markEnd (ext.reverse.length +
          (Char.ofNat 46 :: (stem.reverse ++ (Char.ofNat 47 :: pre.reverse))).length) {}) =
      { startDot := some (pre.length + 1 + stem.length)
        startPart := 0
        endIdx := some (pre.length + 1 + stem.length + 1 + ext.length)
        matchedSlash := false
        preDotState := 0 } := by
    rw [scanStep_first_dot]
    · split
      · rename_i h0
        have : ext = [] := by simpa using h0
        subst this
        simp [markEnd]
        omega
      · rw [markEnd_markEnd]
        simp [markEnd]
        omega
    · split
      · rfl
      · rw [markEnd_startDot]
  rw [hrev, scanRev_tail _ _ _ rfl he2, scanRev, if_neg (by decide)]
  have h46 : (Char.ofNat 46).toNat = 46 := by decide
  rw [h46, hB, scanRev_stem _ _ _ (by simp) (by simp) hn2, hlast]
  simp only []
  rw [scanRev, if_pos (by decide)]
  simp

/-- The extension of a path `dir/stem.ext`. -/
theorem parseExt_stem_dot_ext (dir stem ext : String) (hdir : dir ≠ "")
    (hrel : (dir.data.head?.map Char.toNat) ≠ some 47) (hstem : stem ≠ "")
    (hn : ∀ c ∈ stem.data, c.toNat ≠ 47)
    (he : ∀ c ∈ ext.data, c.toNat ≠ 47 ∧ c.toNat ≠ 46)
    (hnot : ¬ (stem = "." ∧ ext = "")) :
    parseExt (dir ++ "/" ++ stem ++ "." ++ ext) = "." ++ ext := by
  obtain ⟨d0, dir0, hd⟩ : ∃ d0 dir0, dir.data = d0 :: dir0 := by
    cases h : dir.data with
    | nil => exact absurd (String.ext h) hdir
    | cons a b => exact ⟨a, b, rfl⟩
  obtain ⟨c0, stem0, hs⟩ : ∃ c0 stem0, stem.data = c0 :: stem0 := by
    cases h : stem.data with
    | nil => exact absurd (String.ext h) hstem
    | cons a b => exact ⟨a, b, rfl⟩
  have hdata : (dir ++ "/" ++ stem ++ "." ++ ext).data =
      dir.data ++ Char.ofNat 47 :: (stem.data ++ Char.ofNat 46 :: ext.data) := by
    simp [String.data_append]
  have hhead : ((dir ++ "/" ++ stem ++ "." ++ ext).data.head?.map Char.toNat) ≠ some 47 := by
    rw [hdata, hd]
    rw [hd] at hrel
    exact hrel
  unfold parseExt
  simp only [if_neg hhead, Nat.sub_zero]
  rw [scanBack_eq_scanRev, hdata, scanRev_stem_dot_ext dir.data stem.data ext.data c0 stem0 hs hn he]
  simp only []
  have hcond : ¬ ((if c0.toNat = 46 then (1 : Int) else -1) = 0 ∨
      (if c0.toNat = 46 then (1 : Int) else -1) = 1 ∧
        dir.data.length + 1 + stem.data.length
          = dir.data.length + 1 + stem.data.length + 1 + ext.data.length - 1 ∧
        dir.data.length + 1 + stem.data.length = dir.data.length + 1 + 1) := by
    rintro (h0 | ⟨h1, h2, h3⟩)
    · split at h0 <;> omega
    · have hc : c0.toNat = 46 := by
        by_contra hne
        rw [if_neg hne] at h1
        omega
      have hext : ext.data = [] := List.eq_nil_of_length_eq_zero (by omega)
      have hlen : stem.data.length = stem0.length + 1 := by rw [hs]; rfl
      have hstem0 : stem0 = [] := List.eq_nil_of_length_eq_zero (by omega)
      have hc0 : c0 = Char.ofNat 46 := by rw [← hc, Char.ofNat_toNat]
      apply hnot
      constructor
      · apply String.ext
        rw [hs, hstem0, hc0]
      · exact String.ext hext
  rw [if_neg hcond]
  have hsplit : dir.data ++ Char.ofNat 47 :: (stem.data ++ Char.ofNat 46 :: ext.data) =
      (dir.data ++ Char.ofNat 47 :: stem.data) ++ (Char.ofNat 46 :: ext.data) := by simp
  rw [hsplit, List.drop_left' (by simp; omega)]
  apply String.ext
  rw [String.data_append]
  simp only []
  rw [List.take_of_length_le (by simp; omega)]
  rfl

/-- A last component without a dot has no extension. -/
theorem parseExt_no_dot (dir stem : String) (hdir : dir ≠ "")
    (hrel : (dir.data.head?.map Char.toNat) ≠ some 47) (hstem : stem ≠ "")
    (hn : ∀ c ∈ stem.data, c.toNat ≠ 47 ∧ c.toNat ≠ 46) :
    parseExt (dir ++ "/" ++ stem) = "" := by
  obtain ⟨d0, dir0, hd⟩ : ∃ d0 dir0, dir.data = d0 :: dir0 := by
    cases h : dir.data with
    | nil => exact absurd (String.ext h) hdir
    | cons a b => exact ⟨a, b, rfl⟩
  have hne : stem.data.reverse ≠ [] := by
    intro h
    exact hstem (String.ext (by simpa using h))
  have hdata : (dir ++ "/" ++ stem).data = dir.data ++ Char.ofNat 47 :: stem.data := by
    simp [String.data_append]
  have hhead : ((dir ++ "/" ++ stem).data.head?.map Char.toNat) ≠ some 47 := by
    rw [hdata, hd]
    rw [hd] at hrel
    exact hrel
  have hrev : (dir.data ++ Char.ofNat 47 :: stem.data).reverse =
      stem.data.reverse ++ (Char.ofNat 47 :: dir.data.reverse) := by simp
  have hn2 : ∀ c ∈ stem.data.reverse, c.toNat ≠ 47 ∧ c.toNat ≠ 46 := fun c hc =>
    hn c (List.mem_reverse.mp hc)
  unfold parseExt
  simp only [if_neg hhead, Nat.sub_zero]
  rw [scanBack_eq_scanRev, hdata, hrev, scanRev_tail _ _ _ rfl hn2, if_neg hne, scanRev,
    if_pos (by decide)]
  simp [markEnd]

/-- The path `serveStatic` checks for a pathname `d/stem.ext` has the
extension `.ext`. -/
theorem publicPath_extension (rt : Runtime) (u d stem ext : String)
    (hpath : (rt.urlParse u).pathname = d ++ "/" ++ stem ++ "." ++ ext) (hstem : stem ≠ "")
    (hn : ∀ c ∈ stem.data, c.toNat ≠ 47)
    (he : ∀ c ∈ ext.data, c.toNat ≠ 47 ∧ c.toNat ≠ 46)
    (hnot : ¬ (stem = "." ∧ ext = "")) :
    parseExt (publicPath rt u) = "." ++ ext := by
  have h : publicPath rt u = ("./public" ++ d) ++ "/" ++ stem ++ "." ++ ext := by
    rw [publicPath, hpath]
    simp [String.append_assoc]
  rw [h]
  apply parseExt_stem_dot_ext _ _ _ _ _ hstem hn he hnot
  · intro h0
    have := congrArg String.length h0
    simp at this
    exact absurd this.1 (by decide)
  · simp [String.data_append]

end Digistar
